import Mathlib

/-!
Shallow embedding of the layout / editing engine of `src/document_draw.rs`
(plus the small pieces of `src/primitives.rs` and `src/math.rs` it uses),
with theorems settling the claims about it.

Modelling conventions:
* Text is grapheme-segmented: a grapheme is its list of UTF-8 bytes
  (`Grapheme := List Nat`) and a word's text is a list of graphemes
  (`GText`), exactly the view `unicode_segmentation`'s `grapheme_indices`
  provides to the source; byte offsets are recovered with `byteLen`.
* `f32` arithmetic is modelled exactly over `ℚ`.
* `TextProperties` only ever flows through the engine via equality tests
  and as the font-lookup key, so it is abstracted to a `Nat` style id.
* GPU state (`PrimitiveWgpu`) is not modelled; `Primitive` is its
  `PrimitiveProperties`, with the `rusttype` font handle dropped and the
  `content` string kept as its bytes.
-/

/-- Bytes of one grapheme cluster, as produced by `graphemes(true)`. -/
abbrev Grapheme := List Nat

/-- A word's text, split at grapheme boundaries. -/
abbrev GText := List Grapheme

/-- Total byte length of a grapheme-segmented text (`str::len`). -/
def byteLen (t : GText) : Nat := (t.map List.length).sum

/-- `Range<usize>` from the source; `end` is a Lean keyword so the field is
named `stop`. -/
structure WRange where
  start : Nat
  stop : Nat
deriving DecidableEq, Repr

/-- `Range::len` for a `Range<usize>`. -/
def WRange.len (r : WRange) : Nat := r.stop - r.start

/-- `math::Point`, over ℚ. -/
structure PointQ where
  x : ℚ
  y : ℚ
deriving DecidableEq, Repr

/-- `primitives::PrimitiveProperties`: a rectangle with a color, a plain-text
run, or the `Empty` default.  The color is abstracted to a `Nat` id (the
engine never computes with it) and `PlainTextProperties` keeps
`left_top`, `color`, `content` (as bytes) and `scale`; the font handle is
dropped. -/
inductive PrimitiveProperties where
  | rect : PointQ → PointQ → Nat → PrimitiveProperties
  | plainText : PointQ → Nat → List Nat → ℚ → PrimitiveProperties
  | empty : PrimitiveProperties
deriving DecidableEq, Repr

/-- `StyleSegment` of the spec, `GlyphsView` in the source: a byte range into
the word's text, the style properties (abstracted to a style id) and the
materialized primitive (`Primitive::default()` is `.empty`). -/
structure GlyphsView where
  word_range : WRange
  properties : Nat
  primitive : PrimitiveProperties
deriving DecidableEq, Repr

/-- `document_draw::Word`. -/
structure Word where
  word : GText
  glyphs_views : List GlyphsView
deriving DecidableEq, Repr

/-- `Word::default()`. -/
def defaultWord : Word := { word := [], glyphs_views := [] }

/-- `GlyphsView::default()` (used only as a `getD` fallback in statements). -/
def defaultGlyphsView : GlyphsView :=
  { word_range := ⟨0, 0⟩, properties := 0, primitive := .empty }

/-- `Word::clone_without_primitive`: same text and ranges, primitives reset
to the default. -/
def Word.clone_without_primitive (w : Word) : Word :=
  { word := w.word
    glyphs_views := w.glyphs_views.map fun gv =>
      { word_range := gv.word_range, properties := gv.properties,
        primitive := .empty } }

/-- `grapheme.trim().is_empty()`: true when every byte of the grapheme is
(ASCII) whitespace. -/
def grapheme_is_blank (g : Grapheme) : Bool :=
  g.all fun b => b == 32 || b == 9 || b == 10 || b == 13

/-- `push_grapheme_to_curr_word` from `document_draw.rs`: append the grapheme
to the word text; extend the trailing segment when its properties match,
otherwise append a new segment.  Note the source grows a fresh segment as
`last..(last + 1)` (one byte) while extending an existing one by `g.len()`. -/
def push_grapheme_to_curr_word (properties : Nat) (curr_word : Word)
    (g : Grapheme) : Word :=
  let text := curr_word.word ++ [g]
  match curr_word.glyphs_views.getLast? with
  | some last_glyphs_view =>
    if last_glyphs_view.properties = properties then
      let extended : GlyphsView :=
        { last_glyphs_view with
          word_range := ⟨last_glyphs_view.word_range.start,
            last_glyphs_view.word_range.stop + g.length⟩ }
      { word := text
        glyphs_views := curr_word.glyphs_views.dropLast ++ [extended] }
    else
      let last := last_glyphs_view.word_range.stop
      let fresh : GlyphsView :=
        { word_range := ⟨last, last + 1⟩, properties := properties,
          primitive := .empty }
      { word := text, glyphs_views := curr_word.glyphs_views ++ [fresh] }
  | none =>
      let fresh : GlyphsView :=
        { word_range := ⟨0, g.length⟩, properties := properties,
          primitive := .empty }
      { word := text, glyphs_views := [fresh] }

/-- `document_draw::WordState`. -/
inductive WordState where
  | finished : Word → WordState
  | unfinished : Word → WordState
deriving DecidableEq, Repr

/-- `finish_curr_word`: push the current word (primitives dropped) as
finished and reset it. -/
def finish_curr_word (st : List WordState × Word) : List WordState × Word :=
  (st.1 ++ [.finished st.2.clone_without_primitive], defaultWord)

/-- One step of the fold in `get_words` for a single `TextNode`
(`(properties, content)`): pop a trailing unfinished word to continue it
(popping and re-pushing a finished one is the identity), walk the content
grapheme by grapheme, then push the current word back as unfinished. -/
def process_text_node (acc : List WordState) (text : Nat × GText) :
    List WordState :=
  let start : List WordState × Word :=
    match acc.getLast? with
    | some (.unfinished w) => (acc.dropLast, w)
    | _ => (acc, defaultWord)
  let st := text.2.foldl
    (fun (st : List WordState × Word) g =>
      if grapheme_is_blank g then finish_curr_word st
      else (st.1, push_grapheme_to_curr_word text.1 st.2 g))
    start
  st.1 ++ [.unfinished st.2]

/-- `get_words` from `document_draw.rs`: fold the paragraph's text nodes into
words, then strip the `WordState` wrappers (cloning without primitives). -/
def get_words (texts : List (Nat × GText)) : List Word :=
  (texts.foldl process_text_node []).map fun ws =>
    match ws with
    | .finished w => w.clone_without_primitive
    | .unfinished w => w.clone_without_primitive

/-- The segment ranges, read in order, start at `pos`, are each non-empty,
and tile the bytes up to `len` with no gap or overlap. -/
def covers_from : Nat → List WRange → Nat → Bool
  | pos, [], len => pos == len
  | pos, r :: rs, len => r.start == pos && pos < r.stop && covers_from r.stop rs len

/-- The segment coverage invariant of the spec for one word: the style
segments are sorted, contiguous, non-overlapping and their union is exactly
`[0, byte length of the text)`. -/
def segments_cover (w : Word) : Bool :=
  covers_from 0 (w.glyphs_views.map (·.word_range)) (byteLen w.word)

/-- C1 failing input: one paragraph text made of a run with content `a` under
style 0 directly followed by a run with the two-byte grapheme `é` (bytes
195, 169) under style 1 — a style change inside one word at a multi-byte
grapheme. -/
def c1_failing_texts : List (Nat × GText) := [(0, [[97]]), (1, [[195, 169]])]

/-- C1: after initial run segmentation of `c1_failing_texts`, the produced
word violates the segment coverage invariant: the word text is 3 bytes long
but the fresh segment opened at the style change covers one byte only
(`push_grapheme_to_curr_word` grows a new segment as `last..last+1`
irrespective of the grapheme's byte length), so the union of the ranges is
`[0, 2)`, not `[0, 3)`. -/
theorem get_words_breaks_segment_coverage :
    (get_words c1_failing_texts).all segments_cover = false := by decide

/-- `document_draw::CursorTargetIdx`. -/
inductive CursorTargetIdx where
  | wordTarget : Nat → Nat → CursorTargetIdx
  | whiteSpace : Nat → Nat → CursorTargetIdx
  | lineEnd : Nat → CursorTargetIdx
  | nothing : CursorTargetIdx
deriving DecidableEq, Repr

/-- The items `get_cursor_target`'s work deque holds: a `CursorTarget` less
the borrowed word references the source only uses for bookkeeping — `wordT`
keeps its word (the walk needs its grapheme count), the pushed `WhiteSpace`
and `LineEnd` markers carry their neighbours only through the paired index. -/
inductive WTarget where
  | wordT : Word → WTarget
  | gapT : WTarget
  | lineEndT : WTarget

/-- Whether a deque item is still an unvisited word (termination measure
component for `walk`). -/
def WTarget.isWordT : WTarget → Bool
  | .wordT _ => true
  | _ => false

/-- The `while let Some(..) = targets.pop_front()` loop of
`get_cursor_target`: consume `idx` units along the deque.  A popped word
either answers (when `idx` lands inside it), or re-pushes a gap in front of
the next word (a line-end marker when it was the last item); a popped gap
answers at unit 0 and otherwise costs one unit; a popped line-end answers at
unit 0 and is otherwise dropped, after which the empty deque yields
`Nothing`. -/
def walk : List (Nat × WTarget) → Nat → CursorTargetIdx
  | [], _ => .nothing
  | (word_idx, .wordT w) :: rest, idx =>
    let len := w.word.length
    if idx < len then .wordTarget word_idx idx
    else
      match rest with
      | (j, .wordT v) :: tl =>
        walk ((word_idx, .gapT) :: (j, .wordT v) :: tl) (idx - len)
      | [] => walk [(word_idx, .lineEndT)] (idx - len)
      | p :: tl => walk (p :: tl) (idx - len)
  | (word_idx, .gapT) :: rest, idx =>
    if idx = 0 then .whiteSpace word_idx (word_idx + 1) else walk rest (idx - 1)
  | (word_idx, .lineEndT) :: rest, idx =>
    if idx = 0 then .lineEnd word_idx else walk rest idx
termination_by items _ => items.length + items.countP (fun it => it.2.isWordT)
decreasing_by
  all_goals simp [List.countP_cons, WTarget.isWordT]
  all_goals omega

/-- The initial deque of `get_cursor_target`: the line's words, enumerated
from `i`, each as a `WordTarget` at intra-word index 0. -/
def initItems : Nat → List Word → List (Nat × WTarget)
  | _, [] => []
  | i, w :: ws => (i, .wordT w) :: initItems (i + 1) ws

/-- Structural form of `walk`: processing the deque from `initItems i ws`
visits word `i`, then (unless it was the last word) one gap unit, then the
rest of the words; a last word is followed by one line-end unit and any
remaining budget falls off the deque into `Nothing`.  Proved equal to `walk`
below; being structural, it also lets concrete documents evaluate by
`decide`. -/
def walk_line : Nat → List Word → Nat → CursorTargetIdx
  | _, [], _ => .nothing
  | word_idx, w :: rest, idx =>
    let len := w.word.length
    if idx < len then .wordTarget word_idx idx
    else
      match rest with
      | [] => if idx - len = 0 then .lineEnd word_idx else .nothing
      | _ :: _ =>
        if idx - len = 0 then .whiteSpace word_idx (word_idx + 1)
        else walk_line (word_idx + 1) rest (idx - len - 1)

/-- The deque walk of `get_cursor_target`, started on the enumerated words of
a line, agrees with its structural form `walk_line`. -/
theorem walk_initItems_eq_walk_line (ws : List Word) :
    ∀ i idx, walk (initItems i ws) idx = walk_line i ws idx := by
  induction ws with
  | nil =>
    intro i idx
    rw [initItems, walk.eq_def, walk_line]
  | cons w rest ih =>
    intro i idx
    rw [initItems, walk.eq_def]
    cases rest with
    | nil =>
      by_cases h : idx < w.word.length
      · simp [walk_line, h, initItems]
      · simp only [initItems, h, if_false]
        rw [walk.eq_def]
        by_cases h0 : idx - w.word.length = 0
        · simp [walk_line, h, h0]
        · simp only [h0, if_false]
          rw [walk.eq_def]
          simp [walk_line, h, h0]
    | cons r rs =>
      by_cases h : idx < w.word.length
      · simp [walk_line, h, initItems]
      · simp only [initItems, h, if_false]
        rw [walk.eq_def]
        by_cases h0 : idx - w.word.length = 0
        · simp [walk_line, h, h0]
        · simp only [h0, if_false]
          rw [show ((i + 1, WTarget.wordT r) :: initItems (i + 1 + 1) rs)
              = initItems (i + 1) (r :: rs) from rfl, ih]
          simp [walk_line, h, h0]

/-- `DocumentDraw::get_cursor_target`, applied to the slice
`words[line.range]` of the cursor's line and the cursor's `char_idx`.
Defined through the structural form `walk_line` of the loop so that concrete
documents evaluate inside the kernel; `walk_initItems_eq_walk_line` below
proves this equal to the literal deque walk `walk` started on
`initItems 0 ws`, which is the letter of the source. -/
def get_cursor_target (ws : List Word) (char_idx : Nat) : CursorTargetIdx :=
  walk_line 0 ws char_idx

/-- Number of cursor units strictly before word `k` of a line: every earlier
word contributes its grapheme count plus one unit for the gap after it. -/
def unitPos (ws : List Word) (k : Nat) : Nat :=
  ((ws.take k).map (fun w => w.word.length + 1)).sum

theorem unitPos_cons_succ (w : Word) (rest : List Word) (k : Nat) :
    unitPos (w :: rest) (k + 1) = w.word.length + 1 + unitPos rest k := by
  simp [unitPos]

theorem walk_line_wordTarget (ws : List Word) :
    ∀ i k off, k < ws.length → off < (ws.getD k defaultWord).word.length →
      walk_line i ws (unitPos ws k + off) = .wordTarget (i + k) off := by
  induction ws with
  | nil => intro i k off hk _; simp at hk
  | cons w rest ih =>
    intro i k off hk hoff
    cases k with
    | zero =>
      simp only [List.getD_cons_zero] at hoff
      simp [walk_line, unitPos, hoff]
    | succ k' =>
      have hk' : k' < rest.length := by simpa using hk
      cases rest with
      | nil => simp at hk'
      | cons r rs =>
        simp only [List.getD_cons_succ] at hoff
        rw [unitPos_cons_succ]
        have hlt : ¬ (w.word.length + 1 + unitPos (r :: rs) k' + off
            < w.word.length) := by omega
        have h0 : ¬ (w.word.length + 1 + unitPos (r :: rs) k' + off
            - w.word.length = 0) := by omega
        have harg : w.word.length + 1 + unitPos (r :: rs) k' + off
            - w.word.length - 1 = unitPos (r :: rs) k' + off := by omega
        rw [walk_line]
        simp only [hlt, if_false, h0, harg]
        rw [ih (i + 1) k' off hk' hoff]
        congr 1
        omega

theorem walk_line_whiteSpace (ws : List Word) :
    ∀ i k, k + 1 < ws.length →
      walk_line i ws (unitPos ws k + (ws.getD k defaultWord).word.length)
        = .whiteSpace (i + k) (i + k + 1) := by
  induction ws with
  | nil => intro i k hk; simp at hk
  | cons w rest ih =>
    intro i k hk
    cases k with
    | zero =>
      have hrest : rest ≠ [] := by
        intro h
        rw [h] at hk
        simp at hk
      cases rest with
      | nil => exact absurd rfl hrest
      | cons r rs =>
        simp only [List.getD_cons_zero]
        have hlt : ¬ (unitPos (w :: r :: rs) 0 + w.word.length
            < w.word.length) := by simp [unitPos]
        rw [walk_line]
        simp [unitPos, hlt]
    | succ k' =>
      have hk' : k' + 1 < rest.length := by simpa using hk
      cases rest with
      | nil => simp at hk'
      | cons r rs =>
        simp only [List.getD_cons_succ]
        rw [unitPos_cons_succ]
        have hlt : ¬ (w.word.length + 1 + unitPos (r :: rs) k'
            + ((r :: rs).getD k' defaultWord).word.length < w.word.length) := by
          omega
        have h0 : ¬ (w.word.length + 1 + unitPos (r :: rs) k'
            + ((r :: rs).getD k' defaultWord).word.length - w.word.length = 0) := by
          omega
        have harg : w.word.length + 1 + unitPos (r :: rs) k'
            + ((r :: rs).getD k' defaultWord).word.length - w.word.length - 1
            = unitPos (r :: rs) k'
              + ((r :: rs).getD k' defaultWord).word.length := by
          omega
        rw [walk_line]
        simp only [hlt, if_false, h0, harg]
        rw [ih (i + 1) k' hk']
        congr 1 <;> omega

theorem walk_line_lineEnd (ws : List Word) :
    ∀ i, ws ≠ [] →
      walk_line i ws (unitPos ws (ws.length - 1)
          + (ws.getD (ws.length - 1) defaultWord).word.length)
        = .lineEnd (i + (ws.length - 1)) := by
  induction ws with
  | nil => intro i h; exact absurd rfl h
  | cons w rest ih =>
    intro i _
    cases rest with
    | nil =>
      simp only [List.length_cons, List.length_nil]
      simp [walk_line, unitPos]
    | cons r rs =>
      have hlen : (w :: r :: rs).length - 1 = ((r :: rs).length - 1) + 1 := by
        simp
      rw [hlen, unitPos_cons_succ]
      simp only [List.getD_cons_succ]
      have hlt : ¬ (w.word.length + 1 + unitPos (r :: rs) ((r :: rs).length - 1)
          + ((r :: rs).getD ((r :: rs).length - 1) defaultWord).word.length
          < w.word.length) := by omega
      have h0 : ¬ (w.word.length + 1 + unitPos (r :: rs) ((r :: rs).length - 1)
          + ((r :: rs).getD ((r :: rs).length - 1) defaultWord).word.length
          - w.word.length = 0) := by omega
      have harg : w.word.length + 1 + unitPos (r :: rs) ((r :: rs).length - 1)
          + ((r :: rs).getD ((r :: rs).length - 1) defaultWord).word.length
          - w.word.length - 1
          = unitPos (r :: rs) ((r :: rs).length - 1)
            + ((r :: rs).getD ((r :: rs).length - 1) defaultWord).word.length := by
        omega
      rw [walk_line]
      simp only [hlt, if_false, h0, harg]
      rw [ih (i + 1) (by simp)]
      congr 1
      simp
      omega

/-- `get_cursor_target` computes like its structural form. -/
theorem get_cursor_target_eq_walk_line (ws : List Word) (idx : Nat) :
    get_cursor_target ws idx = walk_line 0 ws idx := rfl

/-- C5: `get_cursor_target` walks the alternating sequence word / gap /
word / ... / last word / line end, in which word `k` occupies the units
`[unitPos ws k, unitPos ws k + grapheme count)`, the gap after a non-final
word occupies the next single unit, and the unit after the last word is the
line end: a `char_idx` landing inside a word yields `WordTarget` with that
word's line-relative index and the intra-word grapheme index, a `char_idx`
landing on a gap yields `WhiteSpace` of the two adjacent word indices, the
final implicit unit of the last word yields `LineEnd`, and a line with no
words yields `Nothing`. -/
theorem get_cursor_target_walks_alternating_sequence (ws : List Word)
    (char_idx k off : Nat) :
    (ws = [] → get_cursor_target ws char_idx = .nothing) ∧
    (k < ws.length → off < (ws.getD k defaultWord).word.length →
      get_cursor_target ws (unitPos ws k + off) = .wordTarget k off) ∧
    (k + 1 < ws.length →
      get_cursor_target ws (unitPos ws k + (ws.getD k defaultWord).word.length)
        = .whiteSpace k (k + 1)) ∧
    (ws ≠ [] →
      get_cursor_target ws (unitPos ws (ws.length - 1)
          + (ws.getD (ws.length - 1) defaultWord).word.length)
        = .lineEnd (ws.length - 1)) := by
  refine ⟨?_, ?_, ?_, ?_⟩
  · rintro rfl
    rw [get_cursor_target_eq_walk_line]
    rfl
  · intro hk hoff
    rw [get_cursor_target_eq_walk_line]
    simpa using walk_line_wordTarget ws 0 k off hk hoff
  · intro hk
    rw [get_cursor_target_eq_walk_line]
    simpa using walk_line_whiteSpace ws 0 k hk
  · intro hne
    rw [get_cursor_target_eq_walk_line]
    simpa using walk_line_lineEnd ws 0 hne

/-- A two-grapheme word `ab` with a single segment, for concrete checks. -/
def c5_word_ab : Word :=
  { word := [[97], [98]],
    glyphs_views := [{ word_range := ⟨0, 2⟩, properties := 0,
                       primitive := .empty }] }

/-- A two-grapheme word `cd` with a single segment, for concrete checks. -/
def c5_word_cd : Word :=
  { word := [[99], [100]],
    glyphs_views := [{ word_range := ⟨0, 2⟩, properties := 0,
                       primitive := .empty }] }

/-- Witness for C5 on the line `ab cd`: unit 4 is grapheme 1 of word 1,
unit 2 is the gap between words 0 and 1, unit 5 is the line end, and the
empty line answers `Nothing`. -/
theorem get_cursor_target_walks_alternating_sequence_witness :
    get_cursor_target [] 5 = .nothing ∧
    get_cursor_target [c5_word_ab, c5_word_cd] 4 = .wordTarget 1 1 ∧
    get_cursor_target [c5_word_ab, c5_word_cd] 2 = .whiteSpace 0 1 ∧
    get_cursor_target [c5_word_ab, c5_word_cd] 5 = .lineEnd 1 := by
  refine ⟨?_, ?_, ?_, ?_⟩
  · exact (get_cursor_target_walks_alternating_sequence [] 5 0 0).1 rfl
  · exact (get_cursor_target_walks_alternating_sequence
      [c5_word_ab, c5_word_cd] 0 1 1).2.1 (by decide) (by decide)
  · exact (get_cursor_target_walks_alternating_sequence
      [c5_word_ab, c5_word_cd] 0 0 0).2.2.1 (by decide)
  · exact (get_cursor_target_walks_alternating_sequence
      [c5_word_ab, c5_word_cd] 0 0 0).2.2.2 (by decide)

/-- `document_draw::Line`: cached metrics (over ℚ) and the half-open word
index range; field names keep the source spelling, with `widht_with_spacing`
as in the source and `stop` for `end`. -/
structure Line where
  height : ℚ
  min_width : ℚ
  widht_with_spacing : ℚ
  last_scale : ℚ
  range : WRange
deriving DecidableEq, Repr

/-- `document_draw::Paragraph`, without the paragraph properties (the edit
engine never reads them). -/
structure Paragraph where
  words : List Word
  lines : List Line
deriving DecidableEq, Repr

/-- `document_draw::CursorPos`. -/
structure CursorPos where
  par_idx : Nat
  line_idx : Nat
  char_idx : Nat
deriving DecidableEq, Repr

/-- `document_draw::Cursor`. -/
inductive Cursor where
  | view : CursorPos → Cursor
  | normal : CursorPos → Cursor
  | edit : CursorPos → Cursor
  | select : CursorPos → CursorPos → Cursor
deriving DecidableEq, Repr

/-- `document_draw::DocumentDraw`, restricted to the fields the claims read:
paragraphs, cursor, scroll and scale (pages, fonts, colors and the cursor
primitives are rendering state outside every claim). -/
structure DocumentDraw where
  paragraphs : List Paragraph
  cursor : Cursor
  scroll : ℚ
  scale : ℚ
deriving DecidableEq, Repr

/-- `DocumentDraw::get_cursor_pos`: the position of any non-select cursor,
the `end` position of a selection. -/
def DocumentDraw.get_cursor_pos (d : DocumentDraw) : CursorPos :=
  match d.cursor with
  | .view c => c
  | .normal c => c
  | .edit c => c
  | .select _ e => e

/-- Writing through `DocumentDraw::get_cursor_pos_mut`: replaces the
position `get_cursor_pos` reads. -/
def Cursor.set_pos (c : Cursor) (p : CursorPos) : Cursor :=
  match c with
  | .view _ => .view p
  | .normal _ => .normal p
  | .edit _ => .edit p
  | .select s _ => .select s p

/-- `DocumentDraw.set_cursor_pos d p` is `*d.get_cursor_pos_mut() = p`. -/
def DocumentDraw.set_cursor_pos (d : DocumentDraw) (p : CursorPos) :
    DocumentDraw :=
  { d with cursor := d.cursor.set_pos p }

/-- The slice `&words[range]`: `none` models the Rust panic when the range
is invalid or past the end. -/
def sliceRange (l : List Word) (r : WRange) : Option (List Word) :=
  if r.start ≤ r.stop ∧ r.stop ≤ l.length then
    some ((l.drop r.start).take (r.stop - r.start))
  else none

/-- `DocumentDraw::get_cursor_target` at document level: look up the
cursor's paragraph, line and line word slice (a `none` models the panic of
an out-of-bounds index) and walk the slice at `char_idx`. -/
def DocumentDraw.get_cursor_target_doc (d : DocumentDraw) :
    Option CursorTargetIdx := do
  let cursor := d.get_cursor_pos
  let paragraph ← d.paragraphs.get? cursor.par_idx
  let line ← paragraph.lines.get? cursor.line_idx
  let ws ← sliceRange paragraph.words line.range
  pure (get_cursor_target ws cursor.char_idx)

/-- Byte offset just after grapheme `idx`, as computed by the
`for (g_idx, (w_idx, grapheme)) in word.grapheme_indices(true)` loops that
set `end = w_idx + grapheme.len()` when `g_idx == idx`; when `idx` is out of
range the loop never fires and `end` stays 0. -/
def grapheme_boundary (t : GText) (idx : Nat) : Nat :=
  if idx < t.length then byteLen (t.take (idx + 1)) else 0

/-- Byte span `(start, end)` of grapheme `idx`, as computed by the `remove`
loops (with the same stays-0 behaviour when `idx` is out of range). -/
def grapheme_span (t : GText) (idx : Nat) : Nat × Nat :=
  if idx < t.length then (byteLen (t.take idx), byteLen (t.take (idx + 1)))
  else (0, 0)

/-- Splice `data` into the text at the byte boundary after grapheme `idx`
(the `format!` of three slices in `insert`); the boundary is a grapheme
boundary, so at the grapheme level it is a list splice (when `idx` is out of
range the Rust boundary is byte 0, i.e. the data lands in front). -/
def splice_after_grapheme (t : GText) (idx : Nat) (data : GText) : GText :=
  if idx < t.length then t.take (idx + 1) ++ data ++ t.drop (idx + 1)
  else data ++ t

/-- The `WordTarget` arm of `DocumentDraw::insert` on one word: splice the
data after grapheme `idx`, then shift every segment whose `start`/`end` is
`>= idx` — the source compares the byte offsets `word_range.start` and
`word_range.end` against the grapheme index `idx` and exempts a `start` of
0 — by the byte length of the data. -/
def insert_into_word (w : Word) (idx : Nat) (data : GText) : Word :=
  let len := byteLen data
  { word := splice_after_grapheme w.word idx data
    glyphs_views := w.glyphs_views.map fun gv =>
      let s := if idx ≤ gv.word_range.start ∧ gv.word_range.start ≠ 0
        then gv.word_range.start + len else gv.word_range.start
      let e := if idx ≤ gv.word_range.stop
        then gv.word_range.stop + len else gv.word_range.stop
      { gv with word_range := ⟨s, e⟩ } }

/-- The `WhiteSpace` arm of `DocumentDraw::insert` on the next word: prepend
the data, shift every segment start that is not 0 and every segment end by
the data's byte length. -/
def prepend_to_word (w : Word) (data : GText) : Word :=
  let len := byteLen data
  { word := data ++ w.word
    glyphs_views := w.glyphs_views.map fun gv =>
      let s := if gv.word_range.start ≠ 0 then gv.word_range.start + len
        else gv.word_range.start
      { gv with word_range := ⟨s, gv.word_range.stop + len⟩ } }

/-- The `LineEnd` arm of `DocumentDraw::insert` on the last word: append the
data and extend the trailing segment (if any) by its byte length. -/
def append_to_word (w : Word) (data : GText) : Word :=
  let len := byteLen data
  { word := w.word ++ data
    glyphs_views :=
      match w.glyphs_views.getLast? with
      | none => w.glyphs_views
      | some last =>
        w.glyphs_views.dropLast ++
          [{ last with word_range := ⟨last.word_range.start,
              last.word_range.stop + len⟩ }] }

/-- `DocumentDraw::insert`: resolve the cursor target, mutate the addressed
word (`none` models an index panic), and return the updated document with
the list of `(paragraph, word)` pairs to re-materialize. -/
def DocumentDraw.insert (d : DocumentDraw) (data : GText) :
    Option (DocumentDraw × List (Nat × Nat)) := do
  let target ← d.get_cursor_target_doc
  let cursor := d.get_cursor_pos
  let paragraph ← d.paragraphs.get? cursor.par_idx
  let line ← paragraph.lines.get? cursor.line_idx
  let offset := line.range.start
  match target with
  | .wordTarget word_idx idx =>
    let word ← paragraph.words.get? (offset + word_idx)
    let par := { paragraph with
      words := paragraph.words.set (offset + word_idx)
        (insert_into_word word idx data) }
    pure ({ d with paragraphs := d.paragraphs.set cursor.par_idx par },
      [(cursor.par_idx, offset + word_idx)])
  | .whiteSpace _ next =>
    let word ← paragraph.words.get? (offset + next)
    let par := { paragraph with
      words := paragraph.words.set (offset + next)
        (prepend_to_word word data) }
    pure ({ d with paragraphs := d.paragraphs.set cursor.par_idx par },
      [(cursor.par_idx, offset + next)])
  | .lineEnd word_idx =>
    let word ← paragraph.words.get? (offset + word_idx)
    let par := { paragraph with
      words := paragraph.words.set (offset + word_idx)
        (append_to_word word data) }
    pure ({ d with paragraphs := d.paragraphs.set cursor.par_idx par },
      [(cursor.par_idx, offset + word_idx)])
  | .nothing => pure (d, [])

/-- `Word::clear_glyphs`: re-merge adjacent segments with equal properties
(the merged segment keeps the first start and takes the later end) and drop
every primitive (each rebuilt `GlyphsView` uses `..Default::default()`). -/
def Word.clear_glyphs (w : Word) : Word :=
  match w.glyphs_views with
  | [] => { w with glyphs_views := [] }
  | first :: rest =>
    let prev0 : GlyphsView :=
      { word_range := first.word_range, properties := first.properties,
        primitive := .empty }
    let folded := rest.foldl
      (fun (st : List GlyphsView × GlyphsView) gv =>
        if st.2.properties = gv.properties then
          (st.1, { st.2 with
            word_range := ⟨st.2.word_range.start, gv.word_range.stop⟩ })
        else
          (st.1 ++ [st.2],
            { word_range := gv.word_range, properties := gv.properties,
              primitive := .empty }))
      ([], prev0)
    { w with glyphs_views := folded.1 ++ [folded.2] }

/-- The segment-boundary shift `remove` applies:
`(start as i64 - end as i64).max(0) as usize`.  Since the grapheme span has
`start <= end` this is always 0 — kept literally from the source. -/
def remove_shift (s e : Nat) : Nat := (max ((s : ℤ) - (e : ℤ)) 0).toNat

/-- The grapheme-deleting arm of `DocumentDraw::remove` on one word: compute
the byte span of grapheme `idx`, shift segment boundaries `>= idx` (same
byte-vs-grapheme comparison as `insert`, `start = 0` exempted) back by
`remove_shift`, drop the grapheme from the text, then re-merge equal-style
neighbours with `clear_glyphs`. -/
def remove_grapheme_from_word (w : Word) (idx : Nat) : Word :=
  let span := grapheme_span w.word idx
  let shift := remove_shift span.1 span.2
  let views := w.glyphs_views.map fun gv =>
    let s := if idx ≤ gv.word_range.start ∧ gv.word_range.start ≠ 0
      then gv.word_range.start - shift else gv.word_range.start
    let e := if idx ≤ gv.word_range.stop
      then gv.word_range.stop - shift else gv.word_range.stop
    { gv with word_range := ⟨s, e⟩ }
  let text := if idx < w.word.length then w.word.eraseIdx idx else w.word
  Word.clear_glyphs { word := text, glyphs_views := views }

/-- The `LineEnd` arm of `DocumentDraw::remove` when the word has more than
one byte: delete the last grapheme; `idx` is its byte end, so the
boundary-shift conditions compare byte offsets against it exactly as the
source does. -/
def remove_last_grapheme (w : Word) : Word :=
  let span := grapheme_span w.word (w.word.length - 1)
  let idx := span.2
  let shift := remove_shift span.1 span.2
  let views := w.glyphs_views.map fun gv =>
    let s := if idx ≤ gv.word_range.start ∧ gv.word_range.start ≠ 0
      then gv.word_range.start - shift else gv.word_range.start
    let e := if idx ≤ gv.word_range.stop
      then gv.word_range.stop - shift else gv.word_range.stop
    { gv with word_range := ⟨s, e⟩ }
  let text := w.word.dropLast
  Word.clear_glyphs { word := text, glyphs_views := views }

/-- `DocumentDraw::remove` (backspace): resolve the cursor target; a
`WordTarget` whose word text is one byte long removes the word, otherwise
the grapheme at `idx` is deleted in place; a `WhiteSpace` merges the next
word (text and end-shifted segments) into the previous one; a `LineEnd`
removes a one-byte word or deletes the last grapheme.  `none` models an
index panic; the returned pairs are the words to re-materialize — removing
a whole word reports nothing. -/
def DocumentDraw.remove (d : DocumentDraw) :
    Option (DocumentDraw × List (Nat × Nat)) := do
  let target ← d.get_cursor_target_doc
  let cursor := d.get_cursor_pos
  let paragraph ← d.paragraphs.get? cursor.par_idx
  let line ← paragraph.lines.get? cursor.line_idx
  let offset := line.range.start
  match target with
  | .wordTarget word_idx idx =>
    let word ← paragraph.words.get? (offset + word_idx)
    if byteLen word.word = 1 then
      let par := { paragraph with
        words := paragraph.words.eraseIdx (offset + word_idx) }
      pure ({ d with paragraphs := d.paragraphs.set cursor.par_idx par }, [])
    else
      let par := { paragraph with
        words := paragraph.words.set (offset + word_idx)
          (remove_grapheme_from_word word idx) }
      pure ({ d with paragraphs := d.paragraphs.set cursor.par_idx par },
        [(cursor.par_idx, offset + word_idx)])
  | .whiteSpace prev next =>
    let next_word0 ← paragraph.words.get? (offset + next)
    let next_word := next_word0.clone_without_primitive
    let words1 := paragraph.words.eraseIdx (offset + next)
    let prev_word ← words1.get? (offset + prev)
    let e := (prev_word.glyphs_views.getLast?.map
      (fun g => g.word_range.stop)).getD 0
    let moved := next_word.glyphs_views.map fun g =>
      { g with word_range :=
          ⟨g.word_range.start + e, g.word_range.stop + e⟩ }
    let merged := Word.clear_glyphs
      { word := prev_word.word ++ next_word.word
        glyphs_views := prev_word.glyphs_views ++ moved }
    let par := { paragraph with words := words1.set (offset + prev) merged }
    pure ({ d with paragraphs := d.paragraphs.set cursor.par_idx par },
      [(cursor.par_idx, offset + prev)])
  | .lineEnd word_idx =>
    let word ← paragraph.words.get? (offset + word_idx)
    if byteLen word.word = 1 then
      let par := { paragraph with
        words := paragraph.words.eraseIdx (offset + word_idx) }
      pure ({ d with paragraphs := d.paragraphs.set cursor.par_idx par }, [])
    else
      match word.word.getLast? with
      | none => pure (d, [])
      | some _ =>
        let par := { paragraph with
          words := paragraph.words.set (offset + word_idx)
            (remove_last_grapheme word) }
        pure ({ d with paragraphs := d.paragraphs.set cursor.par_idx par },
          [(cursor.par_idx, offset + word_idx)])
  | .nothing => pure (d, [])

/-- A one-line layout for a one-word paragraph (metrics irrelevant to the
edit engine, which only reads `range`). -/
def one_word_line : Line :=
  { height := 0, min_width := 0, widht_with_spacing := 0, last_scale := 0,
    range := ⟨0, 1⟩ }

/-- C2 input: a document whose single paragraph holds the word `ab` with one
style segment `[0, 2)`, one laid-out line, and an edit cursor at paragraph
0, line 0, char 0 (a `WordTarget`, not `Nothing`). -/
def c2_doc : DocumentDraw :=
  { paragraphs := [{ words := [c5_word_ab], lines := [one_word_line] }],
    cursor := .edit ⟨0, 0, 0⟩, scroll := 100, scale := 1 }

/-- C2: the Insert/Remove round trip does not restore the document.  At the
unchanged cursor, `insert "x"` splices after grapheme 0 (`a x b`) and
`remove` then deletes grapheme 0 — the original `a`, not the inserted `x` —
leaving text `xb`; with the cursor advanced past the insertion (as the
`Add` command path does via `change_char(1)`), the text is restored but the
segment stays `[0, 3)` because `remove`'s boundary shift
`(start - end).max(0)` is always 0.  Both runs differ from the pre-edit
word `ab` with segment `[0, 2)`. -/
theorem insert_remove_round_trip_fails :
    (((c2_doc.insert [[120]]).bind fun r => r.1.remove).map fun r =>
        (r.1.paragraphs.getD 0 ⟨[], []⟩).words)
      = some [{ word := [[120], [98]],
                glyphs_views := [{ word_range := ⟨0, 3⟩, properties := 0,
                                   primitive := .empty }] }] ∧
    (((c2_doc.insert [[120]]).bind fun r =>
          (r.1.set_cursor_pos ⟨0, 0, 1⟩).remove).map fun r =>
        (r.1.paragraphs.getD 0 ⟨[], []⟩).words)
      = some [{ word := [[97], [98]],
                glyphs_views := [{ word_range := ⟨0, 3⟩, properties := 0,
                                   primitive := .empty }] }] ∧
    ([{ word := [[120], [98]],
        glyphs_views := [{ word_range := ⟨0, 3⟩, properties := 0,
                           primitive := .empty }] }] : List Word)
      ≠ [c5_word_ab] ∧
    ([{ word := [[97], [98]],
        glyphs_views := [{ word_range := ⟨0, 3⟩, properties := 0,
                           primitive := .empty }] }] : List Word)
      ≠ [c5_word_ab] := by decide

/-- A word that is a single two-byte grapheme (`é`). -/
def c6_word : Word :=
  { word := [[195, 169]],
    glyphs_views := [{ word_range := ⟨0, 2⟩, properties := 0,
                       primitive := .empty }] }

/-- C6 input: one paragraph holding only the single-grapheme word `é`, with
an edit cursor addressing grapheme 0 of that word. -/
def c6_doc : DocumentDraw :=
  { paragraphs := [{ words := [c6_word], lines := [one_word_line] }],
    cursor := .edit ⟨0, 0, 0⟩, scroll := 100, scale := 1 }

/-- C6 counterexample: `remove` at a `WordTarget` whose word is exactly one
grapheme (the two-byte `é`) does not delete the word — the guard tests
`word.word.len() == 1` in bytes, so the word list still has one (now
empty-texted) word afterwards. -/
theorem remove_single_grapheme_word_not_deleted :
    (c6_doc.remove.map fun r =>
        ((r.1.paragraphs.getD 0 ⟨[], []⟩).words.length,
          (r.1.paragraphs.getD 0 ⟨[], []⟩).words.map (·.word)))
      = some (1, [[]]) := by decide

/-- C6 amended: `remove` at a `WordTarget` deletes the whole word exactly
when the word's text is one byte long (a single one-byte grapheme); the
word list loses that word and no regeneration pair is reported. -/
theorem remove_single_byte_word_deletes_word
    (d : DocumentDraw) (wi idx : Nat) (par : Paragraph) (line : Line)
    (w : Word)
    (htarget : d.get_cursor_target_doc = some (.wordTarget wi idx))
    (hpar : d.paragraphs.get? d.get_cursor_pos.par_idx = some par)
    (hline : par.lines.get? d.get_cursor_pos.line_idx = some line)
    (hword : par.words.get? (line.range.start + wi) = some w)
    (hbyte : byteLen w.word = 1) :
    d.remove = some
      ({ d with
          paragraphs := d.paragraphs.set d.get_cursor_pos.par_idx
            ({ par with
                words := par.words.eraseIdx (line.range.start + wi) }) },
        []) := by
  unfold DocumentDraw.remove
  simp only [List.get?_eq_getElem?] at hpar hline hword
  simp [htarget, hpar, hline, hword, hbyte]

/-- A word that is the single one-byte grapheme `a`. -/
def c6_word_a : Word :=
  { word := [[97]],
    glyphs_views := [{ word_range := ⟨0, 1⟩, properties := 0,
                       primitive := .empty }] }

/-- C6 amended input: one paragraph holding only the word `a`. -/
def c6_doc_a : DocumentDraw :=
  { paragraphs := [{ words := [c6_word_a], lines := [one_word_line] }],
    cursor := .edit ⟨0, 0, 0⟩, scroll := 100, scale := 1 }

/-- Witness for the amended C6: removing at the one-byte word `a` deletes
the whole word. -/
theorem remove_single_byte_word_deletes_word_witness :
    c6_doc_a.remove = some
      ({ paragraphs := [{ words := [], lines := [one_word_line] }],
         cursor := .edit ⟨0, 0, 0⟩, scroll := 100, scale := 1 }, []) :=
  remove_single_byte_word_deletes_word c6_doc_a 0 0
    { words := [c6_word_a], lines := [one_word_line] } one_word_line
    c6_word_a (by decide) rfl rfl rfl rfl

/-- The `as usize` cast of an `i64`, two's complement. -/
def i64_as_usize (x : ℤ) : Nat := (x % (2 ^ 64 : ℤ)).toNat

/-- `DocumentDraw::change_par`:
`(par_idx as i64 + par_delta).max(0).min(len as i64 - 1) as usize`. -/
def DocumentDraw.change_par (d : DocumentDraw) (par_delta : ℤ) :
    DocumentDraw :=
  d.set_cursor_pos { d.get_cursor_pos with
    par_idx := i64_as_usize (min
      (max ((d.get_cursor_pos.par_idx : ℤ) + par_delta) 0)
      ((d.paragraphs.length : ℤ) - 1)) }

/-- `DocumentDraw::get_curr_par_lines_len`; `none` models the index panic
when the cursor's paragraph does not exist. -/
def DocumentDraw.get_curr_par_lines_len (d : DocumentDraw) : Option Nat :=
  (d.paragraphs.get? d.get_cursor_pos.par_idx).map fun par => par.lines.length

/-- `DocumentDraw::change_line`: an underflowing line index moves one
paragraph back and writes the new paragraph's line count into `char_idx`
(the source writes `char_idx`, not `line_idx`); an overflowing one moves one
paragraph forward and resets `line_idx` to 0; otherwise the delta is
applied.  `none` models the index panic inside `get_curr_par_lines_len`. -/
def DocumentDraw.change_line (d : DocumentDraw) (line_delta : ℤ) :
    Option DocumentDraw :=
  let cursor := d.get_cursor_pos
  if (cursor.line_idx : ℤ) + line_delta < 0 then do
    let d1 := d.change_par (-1)
    let n ← d1.get_curr_par_lines_len
    pure (d1.set_cursor_pos { d1.get_cursor_pos with char_idx := n })
  else do
    let n ← d.get_curr_par_lines_len
    if (n : ℤ) ≤ (cursor.line_idx : ℤ) + line_delta then
      let d1 := d.change_par 1
      pure (d1.set_cursor_pos { d1.get_cursor_pos with line_idx := 0 })
    else
      pure (d.set_cursor_pos { cursor with
        line_idx := i64_as_usize ((cursor.line_idx : ℤ) + line_delta) })

/-- C9 failing input: a document with no paragraphs and the default cursor. -/
def c9_doc : DocumentDraw :=
  { paragraphs := [], cursor := .normal ⟨0, 0, 0⟩, scroll := 100, scale := 1 }

/-- C9 counterexample: on a document with zero paragraphs, `change_line(-1)`
first clamps the paragraph index with `min(..., len - 1)` where
`len - 1 = -1`, so the `as usize` cast wraps to `2^64 - 1`, and the
following `get_curr_par_lines_len` indexes out of bounds — a panic (`none`),
with the cursor's paragraph index far outside `[0, paragraph_count - 1]`. -/
theorem change_line_on_empty_document_panics :
    c9_doc.change_line (-1) = none ∧
    (c9_doc.change_par (-1)).get_cursor_pos.par_idx = 2 ^ 64 - 1 := by
  decide

/-- Writing the cursor position through `get_cursor_pos_mut` is what
`get_cursor_pos` then reads. -/
theorem get_set_cursor_pos (d : DocumentDraw) (p : CursorPos) :
    (d.set_cursor_pos p).get_cursor_pos = p := by
  cases h : d.cursor <;>
    simp [DocumentDraw.set_cursor_pos, DocumentDraw.get_cursor_pos,
      Cursor.set_pos, h]

/-- C9 amended: on a document with at least one paragraph (of sane size),
`change_par` always lands the cursor's paragraph index inside
`[0, paragraph_count - 1]`, whatever the delta; and `get_cursor_target` at
in-bounds paragraph/line indices whose line range lies inside the word list
never panics (out-of-range char indices are answered with a target, `Nothing`
included).  On an empty document the operations index out of bounds instead
of clamping (see the counterexample). -/
theorem cursor_navigation_clamps_in_bounds :
    (∀ (d : DocumentDraw) (par_delta : ℤ), 1 ≤ d.paragraphs.length →
      (d.paragraphs.length : ℤ) ≤ 2 ^ 63 →
      (d.change_par par_delta).get_cursor_pos.par_idx
        < d.paragraphs.length) ∧
    (∀ (d : DocumentDraw) (par : Paragraph) (line : Line),
      d.paragraphs.get? d.get_cursor_pos.par_idx = some par →
      par.lines.get? d.get_cursor_pos.line_idx = some line →
      line.range.start ≤ line.range.stop →
      line.range.stop ≤ par.words.length →
      (d.get_cursor_target_doc).isSome = true) := by
  constructor
  · intro d par_delta hlen hbound
    rw [DocumentDraw.change_par, get_set_cursor_pos]
    simp only [i64_as_usize]
    set v : ℤ := min (max ((d.get_cursor_pos.par_idx : ℤ) + par_delta) 0)
      ((d.paragraphs.length : ℤ) - 1) with hv
    have h0 : 0 ≤ v := by
      rw [hv]
      apply le_min
      · exact le_max_right _ _
      · omega
    have h1 : v ≤ (d.paragraphs.length : ℤ) - 1 := min_le_right _ _
    have hmod : v % (2 ^ 64 : ℤ) = v := Int.emod_eq_of_lt h0 (by omega)
    rw [hmod]
    omega
  · intro d par line hpar hline h1 h2
    rw [DocumentDraw.get_cursor_target_doc]
    simp only [List.get?_eq_getElem?] at hpar hline
    simp [hpar, hline, sliceRange, h1, h2]

/-- Witness for the amended C9 at a concrete one-paragraph document. -/
theorem cursor_navigation_clamps_in_bounds_witness :
    (c6_doc_a.change_par (-5)).get_cursor_pos.par_idx < 1 ∧
    (c6_doc_a.get_cursor_target_doc).isSome = true :=
  ⟨(cursor_navigation_clamps_in_bounds).1 c6_doc_a (-5) (by decide)
      (by decide),
   (cursor_navigation_clamps_in_bounds).2 c6_doc_a
      { words := [c6_word_a], lines := [one_word_line] } one_word_line
      rfl rfl (by decide) (by decide)⟩

/-- `docx_document::Justification` (the variants the layout reads). -/
inductive Justification where
  | start : Justification
  | width : Justification
  | center : Justification
  | ending : Justification
deriving DecidableEq, Repr

/-- `document_draw::VerticalSpacing`. -/
inductive VerticalSpacing where
  | relative : ℚ → VerticalSpacing
  | absolute : ℚ → VerticalSpacing
deriving DecidableEq, Repr

/-- `get_line_vertical_metrics` from `document_draw.rs`: the justification
decides `(start_offset, spacing)`; the source reads the context only through
`ctx.page_content_rect.width()`, passed here as `content_width`.  `End` is a
Lean keyword, spelled `ending`. -/
def get_line_vertical_metrics (justification : Option Justification)
    (content_width : ℚ) (line : Line) (vertical_space : ℚ) :
    ℚ × VerticalSpacing :=
  match justification with
  | some .start => (0, .relative vertical_space)
  | none => (0, .relative vertical_space)
  | some .width =>
    (0, .absolute ((content_width - line.min_width) / (line.range.len : ℚ)))
  | some .center =>
    ((content_width - line.widht_with_spacing) / 2, .relative vertical_space)
  | some .ending =>
    (content_width - line.widht_with_spacing, .relative vertical_space)

/-- C4 input: a line of 3 words with `min_width` 90 (the spec's own
example), content width 120. -/
def c4_line : Line :=
  { height := 10, min_width := 90, widht_with_spacing := 92, last_scale := 1,
    range := ⟨0, 3⟩ }

/-- C4 counterexample: Width justification computes the spacing as
`(content_width - min_width) / n` with `n` the word count — here
`(120 - 90) / 3 = 10` — and `min_width + (n - 1) * spacing` is then
`90 + 2 * 10 = 110`, not the content width 120, beyond any rounding: the
claimed identity uses `n - 1` but the layout adds the spacing after every
word, including the last. -/
theorem width_justify_n_minus_one_identity_fails :
    (get_line_vertical_metrics (some .width) 120 c4_line 1).2
      = .absolute 10 ∧
    c4_line.min_width + ((c4_line.range.len : ℚ) - 1) * 10 = 110 ∧
    (110 : ℚ) ≠ 120 := by
  refine ⟨?_, ?_, by norm_num⟩
  · simp [get_line_vertical_metrics, c4_line, WRange.len]
    norm_num
  · simp [c4_line, WRange.len]
    norm_num

/-- C4 amended: for a Width-justified line with `n = line.range.len ≠ 0`
words, the start offset is 0, the spacing is absolute
`(content_width - min_width) / n`, and it satisfies
`min_width + n * spacing = content_width` exactly (the slack closes the line
only when counted once per word, the last included). -/
theorem width_justify_spacing_closes_line (content_width vertical_space : ℚ)
    (line : Line) (h : line.range.len ≠ 0) :
    (get_line_vertical_metrics (some .width) content_width line
      vertical_space).1 = 0 ∧
    (get_line_vertical_metrics (some .width) content_width line
      vertical_space).2
      = .absolute ((content_width - line.min_width)
          / (line.range.len : ℚ)) ∧
    line.min_width + (line.range.len : ℚ) *
      ((content_width - line.min_width) / (line.range.len : ℚ))
      = content_width := by
  refine ⟨rfl, rfl, ?_⟩
  have hq : (line.range.len : ℚ) ≠ 0 := Nat.cast_ne_zero.2 h
  field_simp

/-- Witness for the amended C4 at the spec's own example
(`content_width = 120`, widths summing to 90, 3 words). -/
theorem width_justify_spacing_closes_line_witness :
    c4_line.range.len ≠ 0 ∧
    (get_line_vertical_metrics (some .width) 120 c4_line 1).2
      = .absolute ((120 - c4_line.min_width) / (c4_line.range.len : ℚ)) ∧
    c4_line.min_width + (c4_line.range.len : ℚ) *
      ((120 - c4_line.min_width) / (c4_line.range.len : ℚ)) = 120 :=
  ⟨by decide,
   (width_justify_spacing_closes_line 120 1 c4_line (by decide)).2.1,
   (width_justify_spacing_closes_line 120 1 c4_line (by decide)).2.2⟩

/-- `f32::clamp(lo, hi)` over ℚ. -/
def rust_clamp (x lo hi : ℚ) : ℚ := min (max x lo) hi

/-- The scale update of `DocumentCommand::NewScale` in
`process_document_command`: the requested scale clamped into `[0.1, 2.0]`
(the old scale only feeds the ratio applied to primitives). -/
def new_scale_command (old request : ℚ) : ℚ := rust_clamp request (1/10) 2

/-- The scale update of `DocumentCommand::RatioScale`: the old scale times
the ratio, clamped into `[0.1, 2.0]`. -/
def ratio_scale_command (old ratio : ℚ) : ℚ :=
  rust_clamp (old * ratio) (1/10) 2

/-- C10: both scale commands keep the document scale inside `[0.1, 2.0]`,
and a request outside the range is silently truncated to the nearer bound
while an in-range request is honoured exactly. -/
theorem scale_commands_clamp (old request ratio : ℚ) :
    (1/10 ≤ new_scale_command old request
      ∧ new_scale_command old request ≤ 2) ∧
    (1/10 ≤ ratio_scale_command old ratio
      ∧ ratio_scale_command old ratio ≤ 2) ∧
    (request < 1/10 → new_scale_command old request = 1/10) ∧
    (2 < request → new_scale_command old request = 2) ∧
    (1/10 ≤ request → request ≤ 2 →
      new_scale_command old request = request) ∧
    (old * ratio < 1/10 → ratio_scale_command old ratio = 1/10) ∧
    (2 < old * ratio → ratio_scale_command old ratio = 2) ∧
    (1/10 ≤ old * ratio → old * ratio ≤ 2 →
      ratio_scale_command old ratio = old * ratio) := by
  unfold new_scale_command ratio_scale_command rust_clamp
  refine ⟨⟨?_, ?_⟩, ⟨?_, ?_⟩, ?_, ?_, ?_, ?_, ?_, ?_⟩
  · exact le_min (le_max_right _ _) (by norm_num)
  · exact min_le_right _ _
  · exact le_min (le_max_right _ _) (by norm_num)
  · exact min_le_right _ _
  · intro h
    rw [max_eq_right h.le, min_eq_left (by norm_num)]
  · intro h
    rw [max_eq_left (by linarith), min_eq_right (by linarith)]
  · intro h1 h2
    rw [max_eq_left h1, min_eq_left h2]
  · intro h
    rw [max_eq_right h.le, min_eq_left (by norm_num)]
  · intro h
    rw [max_eq_left (by linarith), min_eq_right (by linarith)]
  · intro h1 h2
    rw [max_eq_left h1, min_eq_left h2]

/-- Witness for C10: a request of 5 truncates to 2, a ratio driving the
scale to 0.01 truncates to 0.1, a request of 1.5 is honoured. -/
theorem scale_commands_clamp_witness :
    new_scale_command 1 5 = 2 ∧
    ratio_scale_command 1 (1/100) = 1/10 ∧
    new_scale_command 1 (3/2) = 3/2 :=
  ⟨(scale_commands_clamp 1 5 1).2.2.2.1 (by norm_num),
   (scale_commands_clamp 1 5 (1/100)).2.2.2.2.2.1 (by norm_num),
   (scale_commands_clamp 1 (3/2) 1).2.2.2.2.1 (by norm_num) (by norm_num)⟩

/-- The starting `curr_line` of `get_lines`. -/
def empty_line : Line :=
  { height := 0, min_width := 0, widht_with_spacing := 0, last_scale := 0,
    range := ⟨0, 0⟩ }

/-- One iteration of the `get_lines` loop for a word of measured size
`(widht, height, last_scale)` (the spelling follows the source): when the
word no longer fits (`widht_with_spacing + widht > content_width`), push the
current line and open a new one holding just this word; otherwise extend the
current line and its cached metrics. -/
def get_lines_step (content_width vertical_space : ℚ)
    (st : List Line × Line) (sz : ℚ × ℚ × ℚ) : List Line × Line :=
  let widht := sz.1
  let height := sz.2.1
  let last_scale := sz.2.2
  let curr := st.2
  if content_width < curr.widht_with_spacing + widht then
    let e := curr.range.stop
    (st.1 ++ [curr],
      { height := height, min_width := widht,
        widht_with_spacing := widht + vertical_space * last_scale,
        last_scale := last_scale, range := ⟨e, e + 1⟩ })
  else
    (st.1,
      { height := max curr.height height,
        min_width := curr.min_width + widht,
        widht_with_spacing :=
          curr.widht_with_spacing + widht + vertical_space * last_scale,
        last_scale := last_scale,
        range := ⟨curr.range.start, curr.range.stop + 1⟩ })

/-- `get_lines` from `document_draw.rs`.  Each word enters as the size
triple `get_words_sizes` computes for it — (summed glyph widths, max glyph
height, scale of the last glyph run) — since the source reads those out of
the GPU texture extents, which are not modelled; the context is read only
through `ctx.page_content_rect.width()`.  The final `curr_line` is always
pushed. -/
def get_lines (word_sizes : List (ℚ × ℚ × ℚ)) (content_width : ℚ)
    (vertical_space : ℚ) : List Line :=
  let st := word_sizes.foldl (get_lines_step content_width vertical_space)
    ([], empty_line)
  st.1 ++ [st.2]

/-- C8 counterexample: a non-empty paragraph whose only word is wider (200)
than the content width (100) produces two lines, the first with an empty
word range — the pre-loop empty `curr_line` is pushed when the very first
word already overflows — so a zero-word line also occurs outside the sole
line of an empty paragraph. -/
theorem get_lines_emits_empty_first_line :
    (get_lines [(200, 10, 1)] 100 1).map (fun l => l.range.len) = [0, 1] := by
  norm_num [get_lines, get_lines_step, empty_line, WRange.len]

/-- One `get_lines` iteration preserves: every pushed line but the first is
non-empty, and once anything has been pushed the current line is
non-empty. -/
theorem get_lines_step_invariant (cw vs : ℚ) (st : List Line × Line)
    (sz : ℚ × ℚ × ℚ)
    (h1 : ∀ l ∈ st.1.drop 1, 0 < l.range.len)
    (h2 : st.1 ≠ [] → 0 < st.2.range.len) :
    (∀ l ∈ (get_lines_step cw vs st sz).1.drop 1, 0 < l.range.len) ∧
    ((get_lines_step cw vs st sz).1 ≠ [] →
      0 < (get_lines_step cw vs st sz).2.range.len) := by
  rw [get_lines_step]
  split
  · constructor
    · intro l hl
      simp only at hl
      rcases hst : st.1 with _ | ⟨a, as⟩
      · rw [hst] at hl
        simp at hl
      · rw [hst] at hl h1
        simp only [List.cons_append, List.drop_succ_cons,
          List.drop_zero] at hl h1
        rcases List.mem_append.1 hl with hm | hm
        · exact h1 l hm
        · have hql : l = st.2 := by simpa using hm
          rw [hql]
          exact h2 (by rw [hst]; simp)
    · intro _
      simp [WRange.len]
  · constructor
    · intro l hl
      simp only at hl
      exact h1 l hl
    · intro hne
      simp only at hne ⊢
      have h := h2 hne
      simp only [WRange.len] at h ⊢
      omega

/-- The `get_lines` loop keeps its invariant along any word list. -/
theorem get_lines_fold_invariant (cw vs : ℚ)
    (sizes : List (ℚ × ℚ × ℚ)) :
    ∀ st : List Line × Line,
      (∀ l ∈ st.1.drop 1, 0 < l.range.len) →
      (st.1 ≠ [] → 0 < st.2.range.len) →
      (∀ l ∈ (sizes.foldl (get_lines_step cw vs) st).1.drop 1,
        0 < l.range.len) ∧
      ((sizes.foldl (get_lines_step cw vs) st).1 ≠ [] →
        0 < (sizes.foldl (get_lines_step cw vs) st).2.range.len) := by
  induction sizes with
  | nil => intro st h1 h2; exact ⟨h1, h2⟩
  | cons sz rest ih =>
    intro st h1 h2
    simp only [List.foldl_cons]
    have hstep := get_lines_step_invariant cw vs st sz h1 h2
    exact ih (get_lines_step cw vs st sz) hstep.1 hstep.2

/-- C8 amended: every line the breaker produces, except possibly the first,
has a non-empty word range, and an empty paragraph yields exactly one empty
line; a zero-word line can, however, also appear as the first line of a
non-empty paragraph, when its first word alone overflows the content width
(see the counterexample). -/
theorem get_lines_zero_word_lines_only_first (sizes : List (ℚ × ℚ × ℚ))
    (cw vs : ℚ) :
    (∀ l ∈ (get_lines sizes cw vs).drop 1, 0 < l.range.len) ∧
    get_lines [] cw vs = [empty_line] := by
  constructor
  · intro l hl
    simp only [get_lines] at hl
    have hinv := get_lines_fold_invariant cw vs sizes ([], empty_line)
      (by simp) (by simp)
    rcases hacc : (sizes.foldl (get_lines_step cw vs) ([], empty_line)).1
      with _ | ⟨a, as⟩
    · rw [hacc] at hl
      simp at hl
    · rw [hacc] at hl hinv
      simp only [List.cons_append, List.drop_succ_cons,
        List.drop_zero] at hl hinv
      rcases List.mem_append.1 hl with hm | hm
      · exact hinv.1 l hm
      · have hql : l = (sizes.foldl (get_lines_step cw vs)
            ([], empty_line)).2 := by
          simpa using hm
        rw [hql]
        exact hinv.2 (by simp)
  · rfl

/-- The second line of the C8 counterexample run: the overflowing word
alone. -/
def c8_second_line : Line :=
  { height := 10, min_width := 200, widht_with_spacing := 201,
    last_scale := 1, range := ⟨0, 1⟩ }

/-- Witness for the amended C8: the non-first line of the counterexample
run is non-empty, and the empty word list yields the sole empty line. -/
theorem get_lines_zero_word_lines_only_first_witness :
    0 < c8_second_line.range.len ∧ get_lines [] 100 1 = [empty_line] :=
  ⟨(get_lines_zero_word_lines_only_first [(200, 10, 1)] 100 1).1
      c8_second_line
      (by norm_num [get_lines, get_lines_step, empty_line, c8_second_line]),
    (get_lines_zero_word_lines_only_first [] 100 1).2⟩

/-- `PrimitiveProperties::scale` from `primitives.rs`.  A `Rect` becomes
`rect.with_size(rect.size() * ratio)` — `size()` measures height as
`left_top.y - right_bottom.y` while `Rectangle::new` places
`right_bottom = left_top + size`, both kept literally.  A `PlainText` gets
its `left_top.y` moved by `+ ratio` (a translation by the ratio, as in the
source) and its glyph `scale` multiplied by the ratio.  `Empty` is
unchanged. -/
def PrimitiveProperties.scale (p : PrimitiveProperties) (ratio : ℚ) :
    PrimitiveProperties :=
  match p with
  | .rect lt rb c =>
    .rect lt ⟨lt.x + (rb.x - lt.x) * ratio, lt.y + (lt.y - rb.y) * ratio⟩ c
  | .plainText lt c content s =>
    .plainText ⟨lt.x, lt.y + ratio⟩ c content (s * ratio)
  | .empty => .empty

/-- `Primitive::get_scale`: a Rect answers `rect.height()`
(`left_top.y - right_bottom.y`), a PlainText its glyph scale, Empty 0. -/
def PrimitiveProperties.get_scale (p : PrimitiveProperties) : ℚ :=
  match p with
  | .rect lt rb _ => lt.y - rb.y
  | .plainText _ _ _ s => s
  | .empty => 0

/-- The per-glyphs-view body of `DrawState::scale_by_ratio`:
`gv.primitive.prop.clone().scale(ratio)` written back by `update_prim`
(which only rebuilds GPU buffers). -/
def scale_view (ratio : ℚ) (gv : GlyphsView) : GlyphsView :=
  { gv with primitive := gv.primitive.scale ratio }

/-- The per-word body of `DrawState::scale_by_ratio`. -/
def scale_word (ratio : ℚ) (w : Word) : Word :=
  { w with glyphs_views := w.glyphs_views.map (scale_view ratio) }

/-- The per-line body of `DrawState::scale_by_ratio`: every cached metric is
DIVIDED by the ratio. -/
def scale_line (ratio : ℚ) (line : Line) : Line :=
  { line with
      widht_with_spacing := line.widht_with_spacing / ratio,
      min_width := line.min_width / ratio,
      height := line.height / ratio,
      last_scale := line.last_scale / ratio }

/-- The per-paragraph body of `DrawState::scale_by_ratio`. -/
def scale_paragraph (ratio : ℚ) (par : Paragraph) : Paragraph :=
  { words := par.words.map (scale_word ratio),
    lines := par.lines.map (scale_line ratio) }

/-- `DrawState::scale_by_ratio` on the document state. -/
def scale_by_ratio (d : DocumentDraw) (ratio : ℚ) : DocumentDraw :=
  { d with paragraphs := d.paragraphs.map (scale_paragraph ratio) }

/-- C7 input: one line with cached height 10 and one glyph primitive of
scale 4. -/
def c7_line : Line :=
  { height := 10, min_width := 20, widht_with_spacing := 30, last_scale := 1,
    range := ⟨0, 1⟩ }

/-- C7 word: one glyph run with scale 4. -/
def c7_word : Word :=
  { word := [[97]],
    glyphs_views := [{ word_range := ⟨0, 1⟩, properties := 0,
                       primitive := .plainText ⟨0, 0⟩ 0 [97] 4 }] }

/-- C7 document. -/
def c7_doc : DocumentDraw :=
  { paragraphs := [{ words := [c7_word], lines := [c7_line] }],
    cursor := .normal ⟨0, 0, 0⟩, scroll := 100, scale := 1 }

/-- C7 counterexample: scaling by ratio 2 multiplies the glyph primitive's
scale (4 to 8) but DIVIDES the cached line height (10 to 5, not 20): the
cached metrics are not updated by the same multiplicative ratio as the
primitives. -/
theorem scale_by_ratio_divides_line_metrics :
    (((scale_by_ratio c7_doc 2).paragraphs.getD 0 ⟨[], []⟩).lines.getD 0
        empty_line).height = 5 ∧
    ((((scale_by_ratio c7_doc 2).paragraphs.getD 0 ⟨[], []⟩).words.getD 0
        defaultWord).glyphs_views.getD 0
        defaultGlyphsView).primitive.get_scale = 8 ∧
    (5 : ℚ) ≠ 10 * 2 := by
  refine ⟨?_, ?_, by norm_num⟩
  · norm_num [scale_by_ratio, scale_paragraph, scale_line, c7_doc, c7_line]
  · norm_num [scale_by_ratio, scale_paragraph, scale_word, scale_view,
      c7_doc, c7_word, PrimitiveProperties.scale,
      PrimitiveProperties.get_scale]

/-- C7 amended: a scale command's ratio is applied asymmetrically — every
cached line metric is divided by the ratio while every glyph primitive is
transformed by `PrimitiveProperties::scale`, which multiplies a PlainText's
glyph scale by the ratio (`get_scale` grows by the factor the metrics
shrink by). -/
theorem scale_by_ratio_metric_primitive_asymmetry (d : DocumentDraw)
    (ratio : ℚ) (pi li wi gi : Nat) :
    (((scale_by_ratio d ratio).paragraphs.getD pi ⟨[], []⟩).lines.getD li
        empty_line).height
      = ((d.paragraphs.getD pi ⟨[], []⟩).lines.getD li
          empty_line).height / ratio ∧
    (((scale_by_ratio d ratio).paragraphs.getD pi ⟨[], []⟩).lines.getD li
        empty_line).min_width
      = ((d.paragraphs.getD pi ⟨[], []⟩).lines.getD li
          empty_line).min_width / ratio ∧
    (((scale_by_ratio d ratio).paragraphs.getD pi ⟨[], []⟩).lines.getD li
        empty_line).widht_with_spacing
      = ((d.paragraphs.getD pi ⟨[], []⟩).lines.getD li
          empty_line).widht_with_spacing / ratio ∧
    (((scale_by_ratio d ratio).paragraphs.getD pi ⟨[], []⟩).lines.getD li
        empty_line).last_scale
      = ((d.paragraphs.getD pi ⟨[], []⟩).lines.getD li
          empty_line).last_scale / ratio ∧
    ((((scale_by_ratio d ratio).paragraphs.getD pi ⟨[], []⟩).words.getD wi
        defaultWord).glyphs_views.getD gi defaultGlyphsView).primitive
      = ((((d.paragraphs.getD pi ⟨[], []⟩).words.getD wi
          defaultWord).glyphs_views.getD gi
          defaultGlyphsView).primitive).scale ratio ∧
    (∀ (lt : PointQ) (c : Nat) (content : List Nat) (s : ℚ),
      ((PrimitiveProperties.plainText lt c content s).scale ratio).get_scale
        = (PrimitiveProperties.plainText lt c content s).get_scale
          * ratio) := by
  have hp : (scale_by_ratio d ratio).paragraphs.getD pi (⟨[], []⟩ : Paragraph)
      = scale_paragraph ratio (d.paragraphs.getD pi ⟨[], []⟩) := by
    show (d.paragraphs.map (scale_paragraph ratio)).getD pi ⟨[], []⟩ = _
    conv_lhs =>
      rw [show (⟨[], []⟩ : Paragraph) = scale_paragraph ratio ⟨[], []⟩
        from rfl]
    rw [List.getD_map]
  have hl : (scale_paragraph ratio
        (d.paragraphs.getD pi ⟨[], []⟩)).lines.getD li empty_line
      = scale_line ratio
        ((d.paragraphs.getD pi ⟨[], []⟩).lines.getD li empty_line) := by
    show ((d.paragraphs.getD pi ⟨[], []⟩).lines.map
        (scale_line ratio)).getD li empty_line = _
    conv_lhs =>
      rw [show empty_line = scale_line ratio empty_line by
        simp [scale_line, empty_line]]
    rw [List.getD_map]
  have hw : (scale_paragraph ratio
        (d.paragraphs.getD pi ⟨[], []⟩)).words.getD wi defaultWord
      = scale_word ratio
        ((d.paragraphs.getD pi ⟨[], []⟩).words.getD wi defaultWord) := by
    show ((d.paragraphs.getD pi ⟨[], []⟩).words.map
        (scale_word ratio)).getD wi defaultWord = _
    conv_lhs =>
      rw [show defaultWord = scale_word ratio defaultWord from rfl]
    rw [List.getD_map]
  have hg : (scale_word ratio
        ((d.paragraphs.getD pi ⟨[], []⟩).words.getD wi
          defaultWord)).glyphs_views.getD gi defaultGlyphsView
      = scale_view ratio
        (((d.paragraphs.getD pi ⟨[], []⟩).words.getD wi
          defaultWord).glyphs_views.getD gi defaultGlyphsView) := by
    show (((d.paragraphs.getD pi ⟨[], []⟩).words.getD wi
        defaultWord).glyphs_views.map (scale_view ratio)).getD gi
        defaultGlyphsView = _
    conv_lhs =>
      rw [show defaultGlyphsView = scale_view ratio defaultGlyphsView
        from rfl]
    rw [List.getD_map]
  refine ⟨?_, ?_, ?_, ?_, ?_, ?_⟩
  · rw [hp, hl]; rfl
  · rw [hp, hl]; rfl
  · rw [hp, hl]; rfl
  · rw [hp, hl]; rfl
  · rw [hp, hw, hg]; rfl
  · intro lt c content s
    simp [PrimitiveProperties.scale, PrimitiveProperties.get_scale]

/-- Slice `&text[start..stop]` at byte level. -/
def byte_slice (t : GText) (start stop : Nat) : List Nat :=
  (t.flatten.drop start).take (stop - start)

/-- The per-segment clamp
`glyphs_view.word_range.end = glyphs_view.word_range.end.min(word.word.len())`
of `create_word_prim`. -/
def clamp_view (t : GText) (gv : GlyphsView) : GlyphsView :=
  { gv with word_range := ⟨gv.word_range.start,
      min gv.word_range.stop (byteLen t)⟩ }

/-- A successfully materialized segment: the clamped view holding the
PlainText primitive `create_word_prim` builds from the sliced content.  The
effective glyph scale (`zoom * 2 * resolved size`) and the resolved color
are read by no claim and are abstracted to the zoom factor and color id
0. -/
def materialize_view (scale : ℚ) (t : GText) (gv : GlyphsView) :
    GlyphsView :=
  let cv := clamp_view t gv
  let content := byte_slice t cv.word_range.start cv.word_range.stop
  { cv with primitive := .plainText ⟨0, 0⟩ 0 content scale }

/-- The loop of `create_word_prim` over the remaining segments, carrying the
already-processed ones: each view is clamped, its content sliced and its
font resolved (`resolve` stands for `get_or_load_font` on the segment's
font index); on a failed resolution the `?` returns immediately — the
failing view stays clamped but unmaterialized and the rest untouched. -/
def create_word_prim_go (resolve : Nat → Bool) (scale : ℚ) (t : GText) :
    List GlyphsView → List GlyphsView → Word × Bool
  | done, [] => ({ word := t, glyphs_views := done }, true)
  | done, gv :: rest =>
    if resolve gv.properties then
      create_word_prim_go resolve scale t
        (done ++ [materialize_view scale t gv]) rest
    else ({ word := t, glyphs_views := done ++ clamp_view t gv :: rest },
      false)

/-- `DrawState::create_word_prim`: materialize every segment of the word,
stopping at the first font-resolution failure (the `Bool` is the `Result`:
`false` is the propagated error). -/
def create_word_prim (resolve : Nat → Bool) (scale : ℚ) (w : Word) :
    Word × Bool :=
  create_word_prim_go resolve scale w.word [] w.glyphs_views

/-- `DrawState::create_words_prims`: materialize the words in order; the
`?` on each `create_word_prim` stops the loop at the first failing word,
leaving the remaining words untouched and propagating the error. -/
def create_words_prims (resolve : Nat → Bool) (scale : ℚ) :
    List Word → List Word × Bool
  | [] => ([], true)
  | w :: ws =>
    let r := create_word_prim resolve scale w
    if r.2 then
      let rs := create_words_prims resolve scale ws
      (r.1 :: rs.1, rs.2)
    else (r.1 :: ws, false)

/-- A font table that fails exactly for style id 7. -/
def c3_resolve : Nat → Bool := fun p => p != 7

/-- C3 word whose first segment uses the failing style 7 and whose second
uses the resolvable style 8. -/
def c3_word1 : Word :=
  { word := [[97], [98]],
    glyphs_views := [{ word_range := ⟨0, 1⟩, properties := 7,
                       primitive := .empty },
                     { word_range := ⟨1, 2⟩, properties := 8,
                       primitive := .empty }] }

/-- C3 second word, entirely in the resolvable style 8. -/
def c3_word2 : Word :=
  { word := [[99]],
    glyphs_views := [{ word_range := ⟨0, 1⟩, properties := 8,
                       primitive := .empty }] }

/-- C3 counterexample: when font resolution fails for the first segment of
the first word, `create_words_prims` returns with the error flag — the
second segment of that word is NOT materialized (its primitive is still the
default) and the second word is NOT processed — so the failure is not
contained to the one segment and is fatal to building the paragraph (the
caller `new_document_draw` propagates it with `?`). -/
theorem font_failure_not_segment_local :
    create_words_prims c3_resolve 1 [c3_word1, c3_word2]
      = ([c3_word1, c3_word2], false) := by
  decide

/-- The `create_word_prim` loop on `pre ++ v :: post` with every font in
`pre` resolvable and `v`'s font failing: the prefix is materialized, `v` is
clamped but left unmaterialized, the suffix is untouched, and the error is
returned. -/
theorem create_word_prim_go_first_failure (resolve : Nat → Bool) (scale : ℚ)
    (t : GText) (v : GlyphsView) (post : List GlyphsView)
    (hv : resolve v.properties = false) :
    ∀ (pre : List GlyphsView), (∀ u ∈ pre, resolve u.properties = true) →
      ∀ done : List GlyphsView,
        create_word_prim_go resolve scale t done (pre ++ v :: post)
          = ({ word := t,
               glyphs_views := done ++ pre.map (materialize_view scale t)
                 ++ clamp_view t v :: post }, false) := by
  intro pre
  induction pre with
  | nil =>
    intro _ done
    simp [create_word_prim_go, hv]
  | cons u us ih =>
    intro hpre done
    have hu : resolve u.properties = true := hpre u (by simp)
    rw [List.cons_append, create_word_prim_go]
    simp only [hu, if_true]
    rw [ih (fun x hx => hpre x (by simp [hx])) (done ++ [materialize_view scale t u])]
    simp

/-- C3 amended: a font-resolution failure is not contained to its segment —
`create_word_prim` stops at the failing segment (earlier segments keep
their new glyph runs, the failing and all later segments of the word are
left absent) and returns an error, and `create_words_prims` then stops too:
words after the failing one are not materialized and the error propagates
to the caller (fatal to `new_document_draw`; the edit-command paths discard
it per word). -/
theorem font_failure_aborts_word_and_propagates (resolve : Nat → Bool)
    (scale : ℚ) (t : GText) (pre : List GlyphsView) (v : GlyphsView)
    (post : List GlyphsView) (ws : List Word)
    (hpre : ∀ u ∈ pre, resolve u.properties = true)
    (hv : resolve v.properties = false) :
    create_word_prim resolve scale { word := t, glyphs_views := pre ++ v :: post }
      = ({ word := t,
           glyphs_views := pre.map (materialize_view scale t)
             ++ clamp_view t v :: post }, false) ∧
    create_words_prims resolve scale
        ({ word := t, glyphs_views := pre ++ v :: post } :: ws)
      = (({ word := t,
            glyphs_views := pre.map (materialize_view scale t)
              ++ clamp_view t v :: post } : Word) :: ws, false) := by
  have h1 : create_word_prim resolve scale
      { word := t, glyphs_views := pre ++ v :: post }
      = ({ word := t,
           glyphs_views := pre.map (materialize_view scale t)
             ++ clamp_view t v :: post }, false) := by
    rw [create_word_prim]
    simpa using create_word_prim_go_first_failure resolve scale t v post hv
      pre hpre []
  refine ⟨h1, ?_⟩
  rw [create_words_prims]
  simp [h1]

/-- Witness for the amended C3 at the concrete failing table and words. -/
theorem font_failure_aborts_word_and_propagates_witness :
    create_word_prim c3_resolve 1 c3_word1 = (c3_word1, false) ∧
    create_words_prims c3_resolve 1 [c3_word1, c3_word2]
      = ([c3_word1, c3_word2], false) := by
  have h := font_failure_aborts_word_and_propagates c3_resolve 1
    [[97], [98]] []
    { word_range := ⟨0, 1⟩, properties := 7, primitive := .empty }
    [{ word_range := ⟨1, 2⟩, properties := 8, primitive := .empty }]
    [c3_word2] (by simp) (by decide)
  exact ⟨h.1, h.2⟩
